import Mathlib

/-!
Verification development for the hawtk GUI toolkit core: the `tvec` vector
primitive (include/hawtk/vec.hpp), the `widget` tree node, the `renderer`
interface, and the `context` frame driver.

Vectors `tvec<T, N>` are embedded as Lean lists of their element type.
The repository instantiates `T` with `float` (modelled as `ℚ`: the only
float values manipulated here are exact literals) and with `unsigned int`
(modelled as `Nat` together with explicit reduction `% 2 ^ 32`, matching
C++ unsigned wraparound).  Stateful member functions are embedded as
explicit state transformers.
-/

namespace hawtk

/-! ### tvec over `unsigned int` (the `uvec2` instantiation)

Each C++ compound-assignment loop `for index < N: _elements[index] ⊕= rhs[index]`
becomes a `zipWith`, and the broadcast form a `map`.  C++ `unsigned int`
arithmetic is arithmetic modulo `2 ^ 32` on values `< 2 ^ 32`. -/

/-- `tvec& operator+=(const tvec& rhs)`: elementwise `_elements[index] += rhs[index]`
with unsigned wraparound. -/
def uaddAssign (v u : List Nat) : List Nat :=
  List.zipWith (fun a b => (a + b) % 2 ^ 32) v u

/-- `tvec& operator-=(const tvec& rhs)`: elementwise `_elements[index] -= rhs[index]`;
C++ unsigned subtraction is subtraction modulo `2 ^ 32`. -/
def usubAssign (v u : List Nat) : List Nat :=
  List.zipWith (fun a b => (a + (2 ^ 32 - b % 2 ^ 32)) % 2 ^ 32) v u

/-- `tvec& operator*=(const value_type& rhs)`: `element *= rhs` for each element,
with unsigned wraparound. -/
def umulAssignScalar (v : List Nat) (s : Nat) : List Nat :=
  v.map (fun a => (a * s) % 2 ^ 32)

/-- `tvec& operator/=(const value_type& rhs)`: `element /= rhs` for each element;
C++ unsigned division truncates and never wraps (division by zero is UB,
excluded by hypothesis wherever used). -/
def udivAssignScalar (v : List Nat) (s : Nat) : List Nat :=
  v.map (fun a => a / s)

/-- Free `operator+(lhs, rhs)` (vector form): copies `lhs` then applies `+=`. -/
def uvAdd (lhs rhs : List Nat) : List Nat := uaddAssign lhs rhs

/-- Free `operator-(lhs, rhs)` (vector form): copies `lhs` then applies `-=`. -/
def uvSub (lhs rhs : List Nat) : List Nat := usubAssign lhs rhs

/-- Free `operator*(lhs, rhs)` (scalar form): copies `lhs` then applies `*=`. -/
def uvMulScalar (lhs : List Nat) (s : Nat) : List Nat := umulAssignScalar lhs s

/-- Free `operator/(lhs, rhs)` (scalar form): copies `lhs` then applies `/=`. -/
def uvDivScalar (lhs : List Nat) (s : Nat) : List Nat := udivAssignScalar lhs s

/-! ### tvec construction overload set (for the arity claim)

Constructing `tvec<T, N>` from a list of scalar arguments resolves against
three constructors: the zero-argument default (`tvec() : tvec{value_type{0}}`,
every element `0`), the one-argument broadcast (`explicit tvec(const value_type&)`,
every element set to the value), and the variadic element-list constructor
guarded by `enable_if<sizeof...(Args) == N>`.  Any other argument count has
no viable constructor: the program is rejected at compile time, embedded
here as `none`. -/
def tvecConstruct (N : Nat) (args : List ℚ) : Option (List ℚ) :=
  match args with
  | [] => some (List.replicate N 0)
  | [value] => some (List.replicate N value)
  | _ => if args.length = N then some args else none

/-! ### Unary negation (signed/unsigned dispatch and in-place behaviour)

`operator-()` participates in overload resolution only when
`std::is_unsigned<T>::value == false` (SFINAE); for an unsigned element
type no overload remains and the program is rejected at compile time
(`none` below).  Its body is `return *this *= value_type{-1};`: a compound
multiply-assign on the operand itself, returning `*this`. -/

/-- `tvec& operator*=(const value_type& rhs)` for a signed (`Int`) element type:
`element *= rhs` for each element. -/
def imulAssignScalar (v : List Int) (s : Int) : List Int :=
  v.map (fun a => a * s)

/-- `operator-()` on a signed-element vector: the new state of the operand
after `*this *= value_type{-1}`.  The C++ function returns `*this`, so the
value the expression `-v` yields is exactly this new state of `v` (not a
copy: in the state-transformer embedding the returned reference aliases
the operand). -/
def inegAssign (v : List Int) : List Int :=
  imulAssignScalar v (-1)

/-- Overload resolution for `-v` as a function of the element type's
signedness: rejected (no overload, compile error) for unsigned element
types, the in-place negation otherwise. -/
def tvecNegResolve (isUnsigned : Bool) (v : List Int) : Option (List Int) :=
  if isUnsigned then none else some (inegAssign v)

/-! ### widget

A `widget` holds `_dirty` (default-initialized `true`), `_bounds` (a `vec2`,
zero by default via the `tvec` default constructor) and `_children`
(a `std::vector<std::shared_ptr<widget>>`, embedded as a Lean list).  The
child pointer type is kept abstract as `P`: the container operations below
never inspect the pointees.  Member functions that mutate are embedded as
state transformers `widget P → widget P`. -/
structure widget (P : Type) where
  dirty : Bool
  bounds : List ℚ
  children : List P

/-- `widget() = default`: `_dirty` gets its member initializer `true`,
`_bounds` is value-initialized to the zero `vec2`, `_children` is empty. -/
def widgetNew (P : Type) : widget P :=
  ⟨true, List.replicate 2 0, []⟩

/-- `explicit widget(const vec2& bounds)`: as the default, with `_bounds`
set to the argument. -/
def widgetNewBounds (P : Type) (b : List ℚ) : widget P :=
  ⟨true, b, []⟩

/-- `size()`: `_children.size()`. -/
def wsize {P : Type} (w : widget P) : Nat :=
  w.children.length

/-- `at(pos)`: `_children.at(pos)` — bounds-checked, throwing
`std::out_of_range` when `pos >= size()` (embedded as `Except.error`);
the function only reads, so the widget state it returns is the input
state unchanged. -/
def wat {P : Type} (w : widget P) (pos : Nat) : Except String P × widget P :=
  (if h : pos < w.children.length then Except.ok (w.children.get ⟨pos, h⟩)
   else Except.error "out_of_range", w)

/-- `operator[](pos)`: `_children[pos]` — no bounds check is performed;
out-of-range access is undefined behaviour, embedded by requiring the
bound as a proof obligation. -/
def wIndex {P : Type} (w : widget P) (pos : Nat) (h : pos < w.children.length) : P :=
  w.children.get ⟨pos, h⟩

/-- `front()`: `_children.front()` — undefined on an empty sequence,
embedded by requiring non-emptiness as a proof obligation. -/
def wfront {P : Type} (w : widget P) (h : w.children ≠ []) : P :=
  w.children.head h

/-- `back()`: `_children.back()` — undefined on an empty sequence. -/
def wback {P : Type} (w : widget P) (h : w.children ≠ []) : P :=
  w.children.getLast h

/-- `begin()`/`end()` forward iteration: visits `_children` in order. -/
def witer {P : Type} (w : widget P) : List P :=
  w.children

/-- `clear()`: `_children.clear()`. -/
def wclear {P : Type} (w : widget P) : widget P :=
  { w with children := [] }

/-- `insert(pos, widget)`: `_children.insert(pos, widget)` — inserts the
pointer before position `pos` (the iterator is embedded as its index;
valid iterators satisfy `pos ≤ size()`). -/
def winsert {P : Type} (w : widget P) (pos : Nat) (x : P) : widget P :=
  { w with children := w.children.insertIdx pos x }

/-- `erase(pos)`: `_children.erase(pos)` — removes the child at position
`pos` (valid dereferenceable iterators satisfy `pos < size()`). -/
def werase {P : Type} (w : widget P) (pos : Nat) : widget P :=
  { w with children := w.children.eraseIdx pos }

/-- `erase(first, last)`: `_children.erase(first, last)` — removes the
children in the index range `[a, b)`. -/
def weraseRange {P : Type} (w : widget P) (a b : Nat) : widget P :=
  { w with children := w.children.take a ++ w.children.drop b }

/-- `push_back(widget)`: `_children.push_back(widget)`. -/
def wpush {P : Type} (w : widget P) (x : P) : widget P :=
  { w with children := w.children ++ [x] }

/-- `emplace_back<T>(args...)` — the mutation it performs:
`_children.emplace_back(std::make_unique<T>(args...))` appends the owning
pointer of a freshly constructed `T` (here the abstract pointer `x`), and
the function then evaluates `return _children.back();`, i.e. it produces
the container's back element — the owning pointer, of type
`widget_pointer`, not the pointed-to `T` (see the C2 analysis). -/
def wemplace {P : Type} (w : widget P) (x : P) : widget P × P :=
  let w' : widget P := { w with children := w.children ++ [x] }
  (w', w'.children.getLast (by simp [w']))

/-! ### Operation sequences over a widget's child list -/

/-- The operations C3 quantifies over: appends (`push_back`,
`emplace_back`), position-specific inserts and single-child erases. -/
inductive SeqOp (P : Type) where
  | push (x : P)
  | emplace (x : P)
  | ins (pos : Nat) (x : P)
  | del (pos : Nat)

/-- Run one operation against the widget (through the member functions
above). -/
def applySeqOp {P : Type} (w : widget P) : SeqOp P → widget P
  | SeqOp.push x => wpush w x
  | SeqOp.emplace x => (wemplace w x).1
  | SeqOp.ins pos x => winsert w pos x
  | SeqOp.del pos => werase w pos

/-- Run a series of operations left to right. -/
def applySeq {P : Type} (w : widget P) : List (SeqOp P) → widget P
  | [] => w
  | op :: ops => applySeq (applySeqOp w op) ops

/-- Number of append/insert operations in the series. -/
def insertedCount {P : Type} : List (SeqOp P) → Nat
  | [] => 0
  | SeqOp.push _ :: ops => insertedCount ops + 1
  | SeqOp.emplace _ :: ops => insertedCount ops + 1
  | SeqOp.ins _ _ :: ops => insertedCount ops + 1
  | SeqOp.del _ :: ops => insertedCount ops

/-- Number of erased children in the series. -/
def erasedCount {P : Type} : List (SeqOp P) → Nat
  | [] => 0
  | SeqOp.del _ :: ops => erasedCount ops + 1
  | _ :: ops => erasedCount ops

/-- Iterator validity for the series against a sequence of `n` children:
an insert position must satisfy `pos ≤ n`, an erase position `pos < n`
(C++ makes other iterators undefined behaviour). -/
def validSeq {P : Type} : Nat → List (SeqOp P) → Bool
  | _, [] => true
  | n, SeqOp.push _ :: ops => validSeq (n + 1) ops
  | n, SeqOp.emplace _ :: ops => validSeq (n + 1) ops
  | n, SeqOp.ins pos _ :: ops => decide (pos ≤ n) && validSeq (n + 1) ops
  | n, SeqOp.del pos :: ops => decide (pos < n) && validSeq (n - 1) ops

/-- The claim's reference model of the evolving child sequence, built from
the spec's words alone: an append adds the child at the end, an insert at
a position places it there, an erase at a position removes that child. -/
def specChildSequence {P : Type} (cs : List P) : List (SeqOp P) → List P
  | [] => cs
  | SeqOp.push x :: ops => specChildSequence (cs ++ [x]) ops
  | SeqOp.emplace x :: ops => specChildSequence (cs ++ [x]) ops
  | SeqOp.ins pos x :: ops => specChildSequence (cs.insertIdx pos x) ops
  | SeqOp.del pos :: ops => specChildSequence (cs.eraseIdx pos) ops

/-! ### Operations for the dirty-flag invariant (C8)

Every core operation on a widget, including the reads and the range
erase.  `widget::draw` is pure virtual: the core contributes no body, so
no core code runs on the widget state when it is invoked (concrete
subtypes are outside this core). -/
inductive FullOp (P : Type) where
  | atAccess (pos : Nat)
  | push (x : P)
  | emplace (x : P)
  | ins (pos : Nat) (x : P)
  | del (pos : Nat)
  | delRange (a b : Nat)
  | clear

/-- Run one core operation, keeping only its effect on the widget state
(reads return the state untouched, per `wat`). -/
def applyFullOp {P : Type} (w : widget P) : FullOp P → widget P
  | FullOp.atAccess pos => (wat w pos).2
  | FullOp.push x => wpush w x
  | FullOp.emplace x => (wemplace w x).1
  | FullOp.ins pos x => winsert w pos x
  | FullOp.del pos => werase w pos
  | FullOp.delRange a b => weraseRange w a b
  | FullOp.clear => wclear w

/-- Run a series of core operations left to right. -/
def applyFull {P : Type} (w : widget P) : List (FullOp P) → widget P
  | [] => w
  | op :: ops => applyFull (applyFullOp w op) ops

/-! ### vertex, renderer calls, and context

`vertex` is `{ position : vec2, color : color }`; both components are
`tvec<float, _>` values holding exact literals here, modelled over `ℚ`.
A backend's observable behaviour is the sequence of virtual renderer
calls it receives. -/
structure vertex where
  position : List ℚ
  color : List ℚ
deriving DecidableEq

/-- The renderer interface's virtual calls (`hawtk/renderer.hpp`):
`draw(vertices)`, `begin_pass()`, `end_pass()`,
`enable_scissor_test(offset, bounds)`, `disable_scissor_test()`. -/
inductive rcall where
  | begin_pass
  | end_pass
  | draw (vertices : List vertex)
  | enable_scissor_test (offset bounds : List ℚ)
  | disable_scissor_test
deriving DecidableEq

/-- The `tvec` broadcast constructor `explicit tvec(const value_type&)`:
every one of the `N` elements set to `value`. -/
def tvecBroadcast (N : Nat) (value : ℚ) : List ℚ :=
  List.replicate N value

/-- `color{1.f}` as used in `context::draw`: a `tvec<float, 4>` built by
broadcasting `1`. -/
def opaqueWhite : List ℚ :=
  tvecBroadcast 4 1

/-- The vertex list built in `context::draw`:
`{{vec2{-0.5f, -0.5f}, color{1.f}}, {vec2{0.5f, -0.5f}, color{1.f}},
{vec2{0.f, 0.5f}, color{1.f}}}`. -/
def triangleVertices : List vertex :=
  [⟨[-(1 / 2), -(1 / 2)], opaqueWhite⟩,
   ⟨[1 / 2, -(1 / 2)], opaqueWhite⟩,
   ⟨[0, 1 / 2], opaqueWhite⟩]

/-- `context::draw()` (src/unnamed/part_000): builds `vertices`, then
calls `_renderer->begin_pass();` and `_renderer->draw(vertices);` — and
returns.  The recorded backend call sequence of one `draw()`. -/
def contextDrawTrace : List rcall :=
  [rcall.begin_pass, rcall.draw triangleVertices]

/-- `context::update()` (src/unnamed/part_000): the body is empty.  As a
transformer of the context's only state — its owned renderer, abstracted
as `ρ` — paired with the renderer calls it makes. -/
def contextUpdate {ρ : Type} (r : ρ) : ρ × List rcall :=
  (r, [])

end hawtk

namespace hawtk

/-! ## Theorems about the vector primitive -/

/-- C4 counterexample: over the code's unsigned-int instantiation
(`uvec2`-style elements), `(u * s) / s == u` fails for the non-zero scalar
`s = 2` at `u = [2^31, 0]`: the product wraps modulo `2 ^ 32`, so the
division returns `[0, 0] ≠ u`.  The claim asserts the identity exactly for
all integer element types and every non-zero scalar; this instance
refutes it. -/
theorem c4_mul_div_cancel_fails_on_unsigned_overflow :
    uvDivScalar (uvMulScalar [2147483648, 0] 2) 2 = [0, 0] ∧
      ([0, 0] : List Nat) ≠ [2147483648, 0] ∧ (2 : Nat) ≠ 0 := by
  refine ⟨by decide, by decide, by decide⟩

/-- C4 (amended): for the unsigned-integer instantiation, `(u + v) - v == u`
holds exactly (wraparound addition and subtraction cancel), and
`(u * s) / s == u` holds for non-zero `s` provided no component product
`u[i] * s` wraps (i.e. each is `< 2 ^ 32`). -/
theorem c4_vector_identities (u v : List Nat) (s : Nat)
    (hlen : u.length = v.length)
    (hu : ∀ a ∈ u, a < 2 ^ 32) (hv : ∀ b ∈ v, b < 2 ^ 32)
    (hs : s ≠ 0) (hmul : ∀ a ∈ u, a * s < 2 ^ 32) :
    uvSub (uvAdd u v) v = u ∧ uvDivScalar (uvMulScalar u s) s = u := by
  constructor
  · clear hs hmul
    induction u generalizing v with
    | nil => simp [uvSub, uvAdd, uaddAssign, usubAssign]
    | cons a tl ih =>
      cases v with
      | nil => simp at hlen
      | cons b tv =>
        have ha : a < 2 ^ 32 := hu a (by simp)
        have hb : b < 2 ^ 32 := hv b (by simp)
        have htl : uvSub (uvAdd tl tv) tv = tl := by
          refine ih tv (by simpa using hlen) ?_ ?_
          · exact fun x hx => hu x (List.mem_cons_of_mem _ hx)
          · exact fun x hx => hv x (List.mem_cons_of_mem _ hx)
        simp only [uvSub, uvAdd, uaddAssign, usubAssign, List.zipWith_cons_cons,
          List.cons.injEq] at htl ⊢
        refine ⟨?_, by simpa [uvSub, uvAdd, uaddAssign, usubAssign] using htl⟩
        have hW : (2 : Nat) ^ 32 = 4294967296 := by norm_num
        rw [hW] at ha hb ⊢
        omega
  · clear hlen hu hv
    induction u with
    | nil => simp [uvDivScalar, uvMulScalar, umulAssignScalar, udivAssignScalar]
    | cons a tl ih =>
      have ha : a * s < 2 ^ 32 := hmul a (by simp)
      have htl : uvDivScalar (uvMulScalar tl s) s = tl :=
        ih fun x hx => hmul x (List.mem_cons_of_mem _ hx)
      simp only [uvDivScalar, uvMulScalar, umulAssignScalar, udivAssignScalar,
        List.map_cons, List.cons.injEq] at htl ⊢
      refine ⟨?_, by simpa [uvDivScalar, uvMulScalar, umulAssignScalar, udivAssignScalar]
        using htl⟩
      rw [Nat.mod_eq_of_lt ha]
      exact Nat.mul_div_cancel a (Nat.pos_of_ne_zero hs)

/-- C4 witness: the amended identities evaluated at `u = [3, 5]`,
`v = [7, 2]`, `s = 4`. -/
theorem c4_vector_identities_witness :
    uvSub (uvAdd [3, 5] [7, 2]) [7, 2] = [3, 5] ∧
      uvDivScalar (uvMulScalar [3, 5] 4) 4 = [3, 5] :=
  c4_vector_identities [3, 5] [7, 2] 4 (by decide) (by decide) (by decide)
    (by decide) (by decide)

/-- C5 counterexample: an argument count different from `N` is not always
rejected — one scalar argument is accepted by the broadcast constructor.
The repository itself relies on this: `color{1.f}` in `context::draw`
constructs a `tvec<float, 4>` from one scalar, yielding `(1, 1, 1, 1)`. -/
theorem c5_one_argument_accepted_for_dimension_four :
    tvecConstruct 4 [1] = some [1, 1, 1, 1] ∧ (1 : Nat) ≠ 4 :=
  ⟨rfl, by decide⟩

/-- C5 (amended): construction of a dimension-`N` vector from `k` scalar
arguments is rejected at compile time (no viable constructor) for every
`k ∉ {0, 1, N}`; `k = 0` zero-initializes every element and `k = 1`
broadcasts the single value to every element. -/
theorem c5_construction_arity (N : Nat) (args : List ℚ)
    (h0 : args.length ≠ 0) (h1 : args.length ≠ 1) (hN : args.length ≠ N) :
    tvecConstruct N args = none ∧
      tvecConstruct N [] = some (List.replicate N 0) ∧
      ∀ value : ℚ, tvecConstruct N [value] = some (List.replicate N value) := by
  refine ⟨?_, rfl, fun value => rfl⟩
  cases args with
  | nil => simp at h0
  | cons a tl =>
    cases tl with
    | nil => simp at h1
    | cons b tl2 =>
      simp only [tvecConstruct]
      rw [if_neg hN]

/-- C5 witness: two arguments for dimension three are rejected, while zero
and one argument remain accepted. -/
theorem c5_construction_arity_witness :
    tvecConstruct 3 [1, 2] = none ∧
      tvecConstruct 3 [] = some (List.replicate 3 0) ∧
      ∀ value : ℚ, tvecConstruct 3 [value] = some (List.replicate 3 value) :=
  c5_construction_arity 3 [1, 2] (by decide) (by decide) (by decide)

/-- C6: unary negation resolves to an overload exactly when the element
type is not unsigned: on an unsigned element type no overload survives the
`enable_if` guard and the program is rejected at compile time (`none`,
never a runtime error), while for a signed element type the overload
exists, is total, and computes the elementwise negation. -/
theorem c6_negation_signed_only_compile_time (v : List Int) :
    tvecNegResolve true v = none ∧
      tvecNegResolve false v = some (v.map (fun a => -a)) := by
  refine ⟨rfl, ?_⟩
  simp [tvecNegResolve, inegAssign, imulAssignScalar, mul_neg_one]

/-- C10 counterexample: the claim concludes that after `-v` the operand
no longer holds its original elements, for every signed-element vector.
The all-zero vector refutes it: `*this *= -1` replaces each `0` by
`0 * -1 = 0`, so after evaluating `-v` the operand holds exactly its
original elements. -/
theorem c10_zero_vector_held_unchanged_by_negation :
    inegAssign [0, 0] = ([0, 0] : List Int) := by
  decide

/-- C10 (amended): `-v` on a signed-element vector acts in place: the
operand ends holding `-1` times each of its old elements, the
expression's value is the operand's new state (`return *this`, not a
negated copy), and whenever some element is non-zero the operand no
longer holds its original elements (the all-zero vector is left
unchanged, since `-0 = 0`). -/
theorem c10_negation_mutates_operand (v : List Int) (hnz : ∃ a ∈ v, a ≠ 0) :
    inegAssign v = v.map (fun a => a * (-1)) ∧ inegAssign v ≠ v := by
  refine ⟨rfl, ?_⟩
  simp only [inegAssign, imulAssignScalar, ne_eq]
  induction v with
  | nil => simp at hnz
  | cons a tl ih =>
    simp only [List.map_cons, List.cons.injEq, not_and]
    intro h1
    obtain ⟨x, hx, hxne⟩ := hnz
    rcases List.mem_cons.mp hx with h | h
    · subst h; exact absurd h1 (by omega)
    · exact ih ⟨x, h, hxne⟩

/-- C10 witness: negating `[1, 2]` leaves the operand holding `[-1, -2]`,
which differs from its original contents. -/
theorem c10_negation_mutates_operand_witness :
    inegAssign [1, 2] = [(1 : Int), 2].map (fun a => a * (-1)) ∧
      inegAssign [1, 2] ≠ [1, 2] :=
  c10_negation_mutates_operand [1, 2] (by decide)

/-! ## Theorems about the widget container -/

/-- C2: the mutation performed by `emplace_back` — the freshly constructed
child is appended as the last child (`size()` grows by one, `back()` is
the new child) — and the value its `return _children.back();` statement
produces: the owning `widget_pointer` at the back of the container, not a
reference to the pointed-to `T` (binding that pointer to the declared
return type `T&` is ill-formed, the C2 defect). -/
theorem c2_emplace_back_appends_returns_back_pointer {P : Type}
    (w : widget P) (x : P) :
    (wemplace w x).1.children = w.children ++ [x] ∧
      wsize (wemplace w x).1 = wsize w + 1 ∧
      (wemplace w x).2 = x := by
  refine ⟨rfl, by simp [wemplace, wsize], ?_⟩
  simp [wemplace]

/-- Helper for C3: running a valid operation series through the widget
member functions yields exactly the spec's child sequence, and its length
satisfies the append/insert-minus-erase accounting. -/
theorem applySeq_spec {P : Type} (ops : List (SeqOp P)) :
    ∀ w : widget P, validSeq w.children.length ops = true →
      (applySeq w ops).children = specChildSequence w.children ops ∧
        (specChildSequence w.children ops).length + erasedCount ops
          = w.children.length + insertedCount ops := by
  induction ops with
  | nil =>
    intro w _
    simp [applySeq, specChildSequence, insertedCount, erasedCount]
  | cons op ops ih =>
    intro w hv
    cases op with
    | push x =>
      have hlen : (w.children ++ [x]).length = w.children.length + 1 := by simp
      have hv' : validSeq (wpush w x).children.length ops = true := by
        simp only [wpush, hlen]
        simpa [validSeq] using hv
      obtain ⟨h1, h2⟩ := ih (wpush w x) hv'
      simp only [wpush] at h1 h2
      refine ⟨?_, ?_⟩
      · simpa [applySeq, applySeqOp, specChildSequence, wpush] using h1
      · simp only [specChildSequence, insertedCount, erasedCount]
        omega
    | emplace x =>
      have hlen : (w.children ++ [x]).length = w.children.length + 1 := by simp
      have hv' : validSeq ((wemplace w x).1).children.length ops = true := by
        simp only [wemplace, hlen]
        simpa [validSeq] using hv
      obtain ⟨h1, h2⟩ := ih (wemplace w x).1 hv'
      simp only [wemplace] at h1 h2
      refine ⟨?_, ?_⟩
      · simpa [applySeq, applySeqOp, specChildSequence, wemplace] using h1
      · simp only [specChildSequence, insertedCount, erasedCount]
        omega
    | ins pos x =>
      simp only [validSeq, Bool.and_eq_true, decide_eq_true_eq] at hv
      obtain ⟨hpos, hrest⟩ := hv
      have hlen : (w.children.insertIdx pos x).length = w.children.length + 1 :=
        List.length_insertIdx pos w.children hpos
      have hv' : validSeq (winsert w pos x).children.length ops = true := by
        simp only [winsert, hlen]
        exact hrest
      obtain ⟨h1, h2⟩ := ih (winsert w pos x) hv'
      simp only [winsert] at h1 h2
      refine ⟨?_, ?_⟩
      · simpa [applySeq, applySeqOp, specChildSequence, winsert] using h1
      · simp only [specChildSequence, insertedCount, erasedCount]
        omega
    | del pos =>
      simp only [validSeq, Bool.and_eq_true, decide_eq_true_eq] at hv
      obtain ⟨hpos, hrest⟩ := hv
      have hlen : (w.children.eraseIdx pos).length + 1 = w.children.length :=
        List.length_eraseIdx_add_one hpos
      have hv' : validSeq (werase w pos).children.length ops = true := by
        simp only [werase]
        have : (w.children.eraseIdx pos).length = w.children.length - 1 := by omega
        rw [this]
        exact hrest
      obtain ⟨h1, h2⟩ := ih (werase w pos) hv'
      simp only [werase] at h1 h2
      refine ⟨?_, ?_⟩
      · simpa [applySeq, applySeqOp, specChildSequence, werase] using h1
      · simp only [specChildSequence, insertedCount, erasedCount]
        omega

/-- C3: for a widget built from empty by any valid series of appends,
position-specific inserts and erases: `size()` is the number of
append/insert operations minus the number of erased children, forward
iteration visits exactly the spec's child sequence in order, and
`front()`/`back()` are its first and last surviving child. -/
theorem c3_sequence_container_semantics {P : Type} (ops : List (SeqOp P))
    (hv : validSeq 0 ops = true) :
    wsize (applySeq (widgetNew P) ops) + erasedCount ops = insertedCount ops ∧
      wsize (applySeq (widgetNew P) ops) = insertedCount ops - erasedCount ops ∧
      witer (applySeq (widgetNew P) ops) = specChildSequence [] ops ∧
      (∀ h : (applySeq (widgetNew P) ops).children ≠ [],
        some (wfront (applySeq (widgetNew P) ops) h)
            = (specChildSequence ([] : List P) ops).head? ∧
          some (wback (applySeq (widgetNew P) ops) h)
            = (specChildSequence ([] : List P) ops).getLast?) := by
  have hbase : (widgetNew P).children = ([] : List P) := rfl
  obtain ⟨hch, hcnt⟩ := applySeq_spec ops (widgetNew P) (by simpa [widgetNew] using hv)
  rw [hbase] at hch hcnt
  have hsize : wsize (applySeq (widgetNew P) ops)
      = (specChildSequence ([] : List P) ops).length := by
    simp [wsize, hch]
  refine ⟨?_, ?_, ?_, ?_⟩
  · rw [hsize]; simpa using hcnt
  · rw [hsize]; simp only [List.length_nil, Nat.zero_add] at hcnt; omega
  · simpa [witer] using hch
  · intro h
    constructor
    · rw [show wfront (applySeq (widgetNew P) ops) h
          = (applySeq (widgetNew P) ops).children.head h from rfl,
        ← List.head?_eq_head, hch]
    · rw [show wback (applySeq (widgetNew P) ops) h
          = (applySeq (widgetNew P) ops).children.getLast h from rfl,
        ← List.getLast?_eq_getLast, hch]

/-- C3 witness: the series push `10`, insert `20` at 0, emplace `30`,
erase at 1 leaves children `[20, 30]`, with size `3 - 1 = 2`, front `20`
and back `30`. -/
theorem c3_sequence_container_semantics_witness :
    wsize (applySeq (widgetNew Nat)
          [SeqOp.push 10, SeqOp.ins 0 20, SeqOp.emplace 30, SeqOp.del 1])
        + erasedCount [SeqOp.push (10 : Nat), SeqOp.ins 0 20, SeqOp.emplace 30, SeqOp.del 1]
      = insertedCount [SeqOp.push (10 : Nat), SeqOp.ins 0 20, SeqOp.emplace 30, SeqOp.del 1] ∧
      wsize (applySeq (widgetNew Nat)
          [SeqOp.push 10, SeqOp.ins 0 20, SeqOp.emplace 30, SeqOp.del 1])
        = insertedCount [SeqOp.push (10 : Nat), SeqOp.ins 0 20, SeqOp.emplace 30, SeqOp.del 1]
          - erasedCount [SeqOp.push (10 : Nat), SeqOp.ins 0 20, SeqOp.emplace 30, SeqOp.del 1] ∧
      witer (applySeq (widgetNew Nat)
          [SeqOp.push 10, SeqOp.ins 0 20, SeqOp.emplace 30, SeqOp.del 1])
        = specChildSequence []
            [SeqOp.push (10 : Nat), SeqOp.ins 0 20, SeqOp.emplace 30, SeqOp.del 1] ∧
      (∀ h : (applySeq (widgetNew Nat)
          [SeqOp.push 10, SeqOp.ins 0 20, SeqOp.emplace 30, SeqOp.del 1]).children ≠ [],
        some (wfront (applySeq (widgetNew Nat)
              [SeqOp.push 10, SeqOp.ins 0 20, SeqOp.emplace 30, SeqOp.del 1]) h)
            = (specChildSequence ([] : List Nat)
                [SeqOp.push 10, SeqOp.ins 0 20, SeqOp.emplace 30, SeqOp.del 1]).head? ∧
          some (wback (applySeq (widgetNew Nat)
              [SeqOp.push 10, SeqOp.ins 0 20, SeqOp.emplace 30, SeqOp.del 1]) h)
            = (specChildSequence ([] : List Nat)
                [SeqOp.push 10, SeqOp.ins 0 20, SeqOp.emplace 30, SeqOp.del 1]).getLast?) :=
  c3_sequence_container_semantics
    [SeqOp.push 10, SeqOp.ins 0 20, SeqOp.emplace 30, SeqOp.del 1] (by decide)

/-- C7: `at(pos)` never mutates the widget; in range it returns the child
at `pos` (agreeing with the unchecked `operator[]`), and out of range it
reports the recoverable `std::out_of_range` error.  `operator[]` itself
(`wIndex`) performs no check: it is only defined under the caller-supplied
bound, out-of-range use being undefined behaviour. -/
theorem c7_checked_access {P : Type} (w : widget P) (pos : Nat) :
    (wat w pos).2 = w ∧
      (∀ h : pos < wsize w, (wat w pos).1 = Except.ok (wIndex w pos h)) ∧
      (wsize w ≤ pos → (wat w pos).1 = Except.error "out_of_range") := by
  refine ⟨rfl, ?_, ?_⟩
  · intro h
    simp only [wsize] at h
    simp only [wat]
    rw [dif_pos h]
    rfl
  · intro h
    simp only [wsize] at h
    simp only [wat]
    rw [dif_neg (by omega)]

/-- C7 witness: on a one-child widget, `at(1)` reports the out-of-range
error and leaves the widget unchanged, while `at(0)` returns the child. -/
theorem c7_checked_access_witness :
    (wat (wpush (widgetNew Nat) 5) 1).1 = Except.error "out_of_range" ∧
      (wat (wpush (widgetNew Nat) 5) 1).2 = wpush (widgetNew Nat) 5 ∧
      (wat (wpush (widgetNew Nat) 5) 0).1 = Except.ok 5 :=
  ⟨(c7_checked_access (wpush (widgetNew Nat) 5) 1).2.2 (by decide),
    (c7_checked_access (wpush (widgetNew Nat) 5) 1).1,
    ((c7_checked_access (wpush (widgetNew Nat) 5) 0).2.1 (by decide)).trans (by rfl)⟩

/-- C8: the dirty flag is `true` at construction (both constructors), and
every core operation — the read `at`, `insert`, `erase` (single and
range), `push_back`, `emplace_back`, `clear` (and `draw`, which is pure
virtual: the core contributes no body) — leaves it unchanged, so
`dirty = true` holds in every reachable widget state. -/
theorem c8_dirty_always_true {P : Type} :
    (widgetNew P).dirty = true ∧
      (∀ b : List ℚ, (widgetNewBounds P b).dirty = true) ∧
      (∀ (w : widget P) (op : FullOp P), (applyFullOp w op).dirty = w.dirty) ∧
      (∀ (b : List ℚ) (ops : List (FullOp P)),
        (applyFull (widgetNewBounds P b) ops).dirty = true) := by
  have hop : ∀ (w : widget P) (op : FullOp P), (applyFullOp w op).dirty = w.dirty := by
    intro w op
    cases op <;> rfl
  have hall : ∀ (ops : List (FullOp P)) (w : widget P),
      (applyFull w ops).dirty = w.dirty := by
    intro ops
    induction ops with
    | nil => intro w; rfl
    | cons op ops ih =>
      intro w
      rw [show applyFull w (op :: ops) = applyFull (applyFullOp w op) ops from rfl,
        ih (applyFullOp w op), hop]
  exact ⟨rfl, fun _ => rfl, hop, fun b ops => hall ops (widgetNewBounds P b)⟩

/-! ## Theorems about the context frame cycle -/

/-- C1 (evaluating the code): one `context::draw()` records exactly
`begin_pass()` followed by one `draw` of the three-vertex triangle with
positions `(-0.5, -0.5)`, `(0.5, -0.5)`, `(0, 0.5)` and every color
opaque white `(1, 1, 1, 1)` — and no `end_pass()` call ever occurs,
contradicting the claimed `begin_pass / draw / end_pass` sequence. -/
theorem c1_draw_trace_has_no_end_pass :
    contextDrawTrace = [rcall.begin_pass, rcall.draw triangleVertices] ∧
      triangleVertices.map vertex.position
        = [[-(1 / 2), -(1 / 2)], [1 / 2, -(1 / 2)], [0, 1 / 2]] ∧
      triangleVertices.map vertex.color = List.replicate 3 [1, 1, 1, 1] ∧
      rcall.end_pass ∉ contextDrawTrace := by
  refine ⟨rfl, rfl, rfl, ?_⟩
  simp [contextDrawTrace]

/-- C9: `context::update()` leaves the context's owned renderer state
unchanged and performs no renderer call. -/
theorem c9_update_is_noop {ρ : Type} (r : ρ) :
    (contextUpdate r).1 = r ∧ (contextUpdate r).2 = ([] : List rcall) :=
  ⟨rfl, rfl⟩

end hawtk
